import Mathlib

/-!
Verification of the limit operator and split coordinator of a streaming
data-processing engine, shallowly embedded from
`python/ray/data/_internal/execution/operators/limit_operator.py` and
`python/ray/data/_internal/stream_split_dataset_iterator.py`.

Blocks are modelled as lists of rows (a row is a `Nat`); a block handle and
the block it denotes are identified, since the embedding is sequential.
-/

/-- A block: an immutable chunk of rows. -/
abbrev Block := List Nat

/-- Model of `BlockAccessor.for_block(block).size_bytes()`: a fixed function
of the block contents (8 bytes per row in this model). -/
def blockSizeBytes (b : Block) : Nat := 8 * b.length

/-- Metadata accompanying a block.  `num_rows` and `size_bytes` may be absent
(`None` in the source); `schema` stands for the remaining opaque metadata
fields, which slicing carries over unchanged via `copy.deepcopy`. -/
structure BlockMetadata where
  num_rows : Option Nat
  size_bytes : Option Nat
  schema : Option Nat
deriving DecidableEq, Repr

/-- An ordered group of (block, metadata) pairs moving together between
operators, with the ownership flag. -/
structure RefBundle where
  blocks : List (Block × BlockMetadata)
  owns_blocks : Bool
deriving DecidableEq, Repr

/-- The mutable state of `LimitOperator`.  `forwarded_log` is a ghost field
recording every forwarded (block, metadata) pair together with a marker that
is `true` exactly when the pair was produced by the slice branch of
`add_input`; it does not influence any behaviour. -/
structure LimitOperator where
  limit : Nat
  consumed_rows : Nat
  buffer : List RefBundle
  output_metadata : List BlockMetadata
  num_outputs_total_field : Option Nat
  forwarded_log : List (Block × BlockMetadata × Bool)
deriving DecidableEq, Repr

/-- `LimitOperator.__init__`: `_consumed_rows = 0`, empty buffer and metadata
log, and `_num_outputs_total = min(input_op.num_outputs_total(), limit)` when
the upstream estimate is known, else `None`. -/
def LimitOperator.init (limit : Nat) (upstream_num_outputs : Option Nat) :
    LimitOperator :=
  { limit := limit
    consumed_rows := 0
    buffer := []
    output_metadata := []
    num_outputs_total_field :=
      match upstream_num_outputs with
      | none => none
      | some u => some (min u limit)
    forwarded_log := [] }

/-- `LimitOperator._limit_reached`: `self._consumed_rows >= self._limit`. -/
def LimitOperator.limit_reached (self : LimitOperator) : Bool :=
  decide (self.consumed_rows ≥ self.limit)

/-- The nested `slice_fn` of `add_input`: slice the block to its first
`num_rows` rows (a copy), deep-copy the metadata and recompute its
`num_rows` and `size_bytes` from the sliced block. -/
def slice_fn (block : Block) (metadata : BlockMetadata) (num_rows : Nat) :
    Block × BlockMetadata :=
  let block := block.take num_rows
  (block,
    { metadata with
      num_rows := some num_rows
      size_bytes := some (blockSizeBytes block) })

/-- The `for block, metadata in refs.blocks` loop of `add_input`, carrying
the running `consumed_rows`.  Returns `none` when the assertion
`num_rows is not None` fails.  Each output pair is tagged with `true` iff it
came from the slice branch (which also `break`s out of the loop).  Note the
source does not update `consumed_rows` in the slice branch. -/
def addInputLoop (limit : Nat) :
    Nat → List (Block × BlockMetadata) →
      Option (List (Block × BlockMetadata × Bool) × Nat)
  | consumed, [] => some ([], consumed)
  | consumed, (block, metadata) :: rest =>
    match metadata.num_rows with
    | none => none
    | some num_rows =>
      if consumed + num_rows ≤ limit then
        match addInputLoop limit (consumed + num_rows) rest with
        | none => none
        | some (out, c2) => some ((block, metadata, false) :: out, c2)
      else
        let bm := slice_fn block metadata (limit - consumed)
        some ([(bm.1, bm.2, true)], consumed)

/-- `LimitOperator.add_input`: returns `none` when an assertion fails
(`input_index == 0`, or a metadata without a row count); when the limit is
already reached the call is a no-op; otherwise the processed pairs form one
output bundle (inheriting `owns_blocks`) appended to the buffer, and the
forwarded metadata are appended to `output_metadata`. -/
def LimitOperator.add_input (self : LimitOperator) (refs : RefBundle)
    (input_index : Nat) : Option LimitOperator :=
  if input_index ≠ 0 then none
  else if self.limit_reached then some self
  else
    match addInputLoop self.limit self.consumed_rows refs.blocks with
    | none => none
    | some (out, consumed2) =>
      some
        { self with
          consumed_rows := consumed2
          buffer :=
            self.buffer ++
              [{ blocks := out.map fun p => (p.1, p.2.1)
                 owns_blocks := refs.owns_blocks }]
          output_metadata := self.output_metadata ++ out.map fun p => p.2.1
          forwarded_log := self.forwarded_log ++ out }

/-- `LimitOperator.has_next`: `len(self._buffer) > 0`. -/
def LimitOperator.has_next (self : LimitOperator) : Bool :=
  decide (0 < self.buffer.length)

/-- `LimitOperator.get_next`: pop the leftmost buffered bundle; `none` models
the `IndexError` of popping an empty deque. -/
def LimitOperator.get_next (self : LimitOperator) :
    Option (RefBundle × LimitOperator) :=
  match self.buffer with
  | [] => none
  | b :: rest => some (b, { self with buffer := rest })

/-- `LimitOperator.num_outputs_total`: the limit once reached, else the value
computed at construction. -/
def LimitOperator.num_outputs_total (self : LimitOperator) : Option Nat :=
  if self.limit_reached then some self.limit else self.num_outputs_total_field

/-- Run a sequence of `add_input` calls (all on input index 0). -/
def runAddInputs : LimitOperator → List RefBundle → Option LimitOperator
  | self, [] => some self
  | self, r :: rs =>
    match self.add_input r 0 with
    | none => none
    | some s2 => runAddInputs s2 rs

/-- Total rows of the cumulative output-metadata log. -/
def outputRows (self : LimitOperator) : Nat :=
  (self.output_metadata.map fun m => m.num_rows.getD 0).sum

/-- Total rows of a list of input bundles, per their metadata. -/
def totalInputRows (bs : List RefBundle) : Nat :=
  (bs.map fun r => (r.blocks.map fun p => p.2.num_rows.getD 0).sum).sum

/-- Number of forwarded blocks produced by the slice branch, per the ghost
log. -/
def slicedCount (self : LimitOperator) : Nat :=
  (self.forwarded_log.filter fun p => p.2.2).length

/-!
Split coordinator (`SplitCoordinator` in `stream_split_dataset_iterator.py`).
The leftover map `_next_bundle` is an association list with unique keys; the
pipeline runner `_output_iterator` is an oracle `pull` mapping an output
index to the outcome of `get_next(output_split_idx)`.
-/

/-- Outcome of `self._output_iterator.get_next(output_split_idx)`: a bundle,
a `StopIteration` (index exhausted), or any other failure (opaque payload). -/
inductive PullResult where
  | bundle (b : RefBundle)
  | stopIteration
  | failure (e : Nat)
deriving DecidableEq, Repr

/-- Result of `SplitCoordinator.get`: a normal return (`ok`), the
invalid-epoch `ValueError`, a propagated upstream failure, or the
`IndexError` of popping an empty block list. -/
inductive GetResult where
  | ok (blk : Option Block)
  | staleEpoch
  | upstreamFailure (e : Nat)
  | indexError
deriving DecidableEq, Repr

/-- Dictionary lookup on the leftover map. -/
def lookupB : List (Nat × RefBundle) → Nat → Option RefBundle
  | [], _ => none
  | (k, v) :: rest, key => if k = key then some v else lookupB rest key

/-- Dictionary assignment `m[key] = v` (replace if present, else add). -/
def insertB : List (Nat × RefBundle) → Nat → RefBundle → List (Nat × RefBundle)
  | [], key, v => [(key, v)]
  | (k, w) :: rest, key, v =>
    if k = key then (key, v) :: rest else (k, w) :: insertB rest key v

/-- Dictionary deletion `del m[key]`. -/
def eraseB : List (Nat × RefBundle) → Nat → List (Nat × RefBundle)
  | [], _ => []
  | (k, w) :: rest, key =>
    if k = key then eraseB rest key else (k, w) :: eraseB rest key

/-- The coordinator state touched by `get`: the current epoch id and the
leftover map `_next_bundle`. -/
structure SplitCoordinator where
  cur_epoch : Int
  next_bundle : List (Nat × RefBundle)
deriving DecidableEq, Repr

/-- The tail of `get` after a bundle is in hand: `next_bundle.blocks.pop()`
takes the last (block, metadata) pair (raising `IndexError` on an empty
list), then under the lock the drained bundle is stored back at
`output_split_idx` and deleted again when no blocks remain. -/
def popAndStore (self : SplitCoordinator) (idx : Nat) (nb : RefBundle) :
    GetResult × SplitCoordinator :=
  match nb.blocks.getLast? with
  | none => (.indexError, self)
  | some pair =>
    let rest := nb.blocks.dropLast
    let nb2 : RefBundle := { nb with blocks := rest }
    let m1 := insertB self.next_bundle idx nb2
    let m2 := if rest.isEmpty then eraseB m1 idx else m1
    (.ok (some pair.1), { self with next_bundle := m2 })

/-- `SplitCoordinator.get`: reject stale epochs, else take the leftover
bundle for the index if present, else pull from the pipeline runner
(`StopIteration` is caught and returns `None`; other failures propagate),
then pop one block and restore the leftovers. -/
def SplitCoordinator.get (self : SplitCoordinator) (pull : Nat → PullResult)
    (epoch_id : Int) (output_split_idx : Nat) :
    GetResult × SplitCoordinator :=
  if epoch_id ≠ self.cur_epoch then (.staleEpoch, self)
  else
    match lookupB self.next_bundle output_split_idx with
    | some nb => popAndStore self output_split_idx nb
    | none =>
      match pull output_split_idx with
      | .stopIteration => (.ok none, self)
      | .failure e => (.upstreamFailure e, self)
      | .bundle nb => popAndStore self output_split_idx nb

/-!
The `_barrier` of `start_epoch`, as an interleaving transition system over
`n` client threads.  Each thread runs: (1) under the lock, record
`starting_epoch = _cur_epoch` and decrement `_unfinished_clients_in_epoch`;
(2) poll until `_cur_epoch != starting_epoch or _unfinished_clients_in_epoch
== 0`; (3) under the lock, if `_cur_epoch == starting_epoch` then increment
the epoch, reset the counter to `n` and construct the epoch pipeline runner;
finally return `starting_epoch + 1`.  `runners` counts constructions of the
pipeline runner (`next(self._next_epoch)`).
-/

/-- Program counter of one client thread inside `_barrier`. -/
inductive ThreadPhase where
  | start
  | arrived (se : Int)
  | passed (se : Int)
  | done (ret : Int) (constructed : Bool)
deriving DecidableEq, Repr

/-- Shared barrier state plus per-thread program counters. -/
structure BarrierState (n : Nat) where
  cur_epoch : Int
  unfinished : Int
  runners : Nat
  threads : Fin n → ThreadPhase

/-- Initial barrier state: counter at `n`, every thread before its
`start_epoch` call, no runner constructed for the next epoch yet. -/
def barrierInit (n : Nat) (e : Int) : BarrierState n :=
  { cur_epoch := e, unfinished := (n : Int), runners := 0
    threads := fun _ => ThreadPhase.start }

/-- One interleaved step of the barrier protocol. -/
inductive BStep {n : Nat} : BarrierState n → BarrierState n → Prop
  | arrive (i : Fin n) (s : BarrierState n) :
      s.threads i = ThreadPhase.start →
      BStep s
        { s with
          unfinished := s.unfinished - 1
          threads := Function.update s.threads i
            (ThreadPhase.arrived s.cur_epoch) }
  | pass (i : Fin n) (se : Int) (s : BarrierState n) :
      s.threads i = ThreadPhase.arrived se →
      (s.cur_epoch ≠ se ∨ s.unfinished = 0) →
      BStep s
        { s with threads := Function.update s.threads i (ThreadPhase.passed se) }
  | finishWin (i : Fin n) (se : Int) (s : BarrierState n) :
      s.threads i = ThreadPhase.passed se →
      s.cur_epoch = se →
      BStep s
        { s with
          cur_epoch := s.cur_epoch + 1
          unfinished := (n : Int)
          runners := s.runners + 1
          threads := Function.update s.threads i
            (ThreadPhase.done (se + 1) true) }
  | finishSkip (i : Fin n) (se : Int) (s : BarrierState n) :
      s.threads i = ThreadPhase.passed se →
      s.cur_epoch ≠ se →
      BStep s
        { s with
          threads := Function.update s.threads i
            (ThreadPhase.done (se + 1) false) }

/-- States reachable from the fresh barrier for one epoch transition. -/
def BarrierReachable (n : Nat) (e : Int) (s : BarrierState n) : Prop :=
  Relation.ReflTransGen BStep (barrierInit n e) s

/-- A thread that has decremented the arrival counter. -/
def isArrivedPhase : ThreadPhase → Bool
  | ThreadPhase.start => false
  | _ => true

/-- A thread past the polling loop (or finished). -/
def isPassedPhase : ThreadPhase → Bool
  | ThreadPhase.passed _ => true
  | ThreadPhase.done _ _ => true
  | _ => false

/-- A thread whose `start_epoch` call has returned. -/
def isDonePhase : ThreadPhase → Bool
  | ThreadPhase.done _ _ => true
  | _ => false

/-- A thread whose call constructed the new pipeline runner. -/
def isConstructedPhase : ThreadPhase → Bool
  | ThreadPhase.done _ c => c
  | _ => false

/-- Number of threads that have arrived at the barrier. -/
def arrivedCount {n : Nat} (ts : Fin n → ThreadPhase) : Nat :=
  (Finset.univ.filter fun i => isArrivedPhase (ts i) = true).card

/-- Number of threads that constructed the pipeline runner. -/
def constructedCount {n : Nat} (ts : Fin n → ThreadPhase) : Nat :=
  (Finset.univ.filter fun i => isConstructedPhase (ts i) = true).card

/-!
Concrete inputs used to evaluate the operators, and the inductive invariant
of the barrier transition system.
-/

/-- Metadata consistently describing an `n`-row block in this model. -/
def mdRows (n : Nat) : BlockMetadata :=
  { num_rows := some n, size_bytes := some (8 * n), schema := none }

/-- A bundle holding one two-row block. -/
def bundle2a : RefBundle := { blocks := [([1, 2], mdRows 2)], owns_blocks := true }

/-- Another bundle holding one two-row block. -/
def bundle2b : RefBundle := { blocks := [([3, 4], mdRows 2)], owns_blocks := true }

/-- Two single-block two-row bundles, fed to a limit-1 operator. -/
def limit1Bundles : List RefBundle := [bundle2a, bundle2b]

/-- One bundle of three three-row blocks (the limit=7 scenario). -/
def bundle333 : RefBundle :=
  { blocks :=
      [([1, 2, 3], mdRows 3), ([4, 5, 6], mdRows 3), ([7, 8, 9], mdRows 3)]
    owns_blocks := true }

/-- A further three-row bundle offered after the limit=7 scenario. -/
def bundleExtra3 : RefBundle :=
  { blocks := [([10, 11, 12], mdRows 3)], owns_blocks := true }

/-- A fresh limit-3 operator. -/
def c10start : LimitOperator := LimitOperator.init 3 none

/-- An input bundle carrying no blocks. -/
def c10refs : RefBundle := { blocks := [], owns_blocks := true }

/-- The limit-3 operator after accepting the empty bundle. -/
def c10after : LimitOperator := { c10start with buffer := [c10refs] }

/-- A pipeline-runner oracle that is exhausted for every index. -/
def pullStop : Nat → PullResult := fun _ => PullResult.stopIteration

/-- A pipeline-runner oracle that fails for every index. -/
def pullFail : Nat → PullResult := fun _ => PullResult.failure 7

/-- A coordinator on epoch 1 whose leftover map still holds epoch-0 data. -/
def coordStale : SplitCoordinator := { cur_epoch := 1, next_bundle := [(0, bundle2a)] }

/-- A coordinator with an empty leftover map. -/
def coordEmpty : SplitCoordinator := { cur_epoch := 0, next_bundle := [] }

/-- A coordinator whose leftover bundle for index 0 has two blocks. -/
def coordTwo : SplitCoordinator :=
  { cur_epoch := 0
    next_bundle :=
      [(0, { blocks := [([1], mdRows 1), ([2], mdRows 1)], owns_blocks := true })] }

/-- `coordTwo` after one `get` popped the tail block. -/
def coordTwoAfter : SplitCoordinator :=
  { cur_epoch := 0
    next_bundle := [(0, { blocks := [([1], mdRows 1)], owns_blocks := true })] }

/-- Inductive invariant of the barrier system started at epoch `e` with `n`
clients. -/
def BarrierInv (n : Nat) (e : Int) (s : BarrierState n) : Prop :=
  (s.cur_epoch = e ∨ s.cur_epoch = e + 1) ∧
  (∀ i se, s.threads i = ThreadPhase.arrived se → se = e) ∧
  (∀ i se, s.threads i = ThreadPhase.passed se → se = e) ∧
  (∀ i r c, s.threads i = ThreadPhase.done r c → r = e + 1) ∧
  (s.cur_epoch = e →
    s.unfinished = (n : Int) - (arrivedCount s.threads : Int) ∧ s.runners = 0) ∧
  (s.cur_epoch = e + 1 → s.unfinished = (n : Int) ∧ s.runners = 1) ∧
  ((∃ i, isPassedPhase (s.threads i) = true) → arrivedCount s.threads = n) ∧
  ((∃ i, isDonePhase (s.threads i) = true) → s.cur_epoch = e + 1) ∧
  constructedCount s.threads = s.runners ∧
  (s.cur_epoch = e + 1 → ∃ i, isDonePhase (s.threads i) = true)

/-- The one-client barrier after its thread has arrived. -/
def bw1 : BarrierState 1 :=
  { barrierInit 1 0 with
    unfinished := (barrierInit 1 0).unfinished - 1
    threads := Function.update (barrierInit 1 0).threads 0
      (ThreadPhase.arrived (barrierInit 1 0).cur_epoch) }

/-- The one-client barrier after its thread passed the polling loop. -/
def bw2 : BarrierState 1 :=
  { bw1 with threads := Function.update bw1.threads 0 (ThreadPhase.passed 0) }

/-- The one-client barrier after its thread won the epoch transition. -/
def bw3 : BarrierState 1 :=
  { bw2 with
    cur_epoch := bw2.cur_epoch + 1
    unfinished := ((1 : Nat) : Int)
    runners := bw2.runners + 1
    threads := Function.update bw2.threads 0 (ThreadPhase.done (0 + 1) true) }

/-!
Theorems.
-/

/-- C1: at the failing input (limit 1, two single-block two-row bundles with
consistent metadata) the run forwards 2 rows in total although
`min(limit, total input rows) = min 1 4 = 1`: the slice branch of
`add_input` never advances `consumed_rows`, so the row-limit claim fails. -/
theorem limit_row_total_bug :
    (runAddInputs (LimitOperator.init 1 none) limit1Bundles).map outputRows =
        some 2 ∧
    min 1 (totalInputRows limit1Bundles) = 1 := by
  decide

/-- C2: in the limit=7 scenario the operator forwards 3, 3 and then a sliced
1-row block, but `consumed_rows` is left at 6 rather than set to the limit 7,
and a further bundle is accepted and forwarded (total rises to 8 rows). -/
theorem limit_slice_consumed_bug :
    ((LimitOperator.init 7 none).add_input bundle333 0).map
        (fun s => (s.consumed_rows, s.output_metadata.map fun m => m.num_rows)) =
      some (6, [some 3, some 3, some 1]) ∧
    (((LimitOperator.init 7 none).add_input bundle333 0).bind
        (fun s => s.add_input bundleExtra3 0)).map
        (fun s => (outputRows s, s.buffer.length)) =
      some (8, 2) := by
  decide

/-- C3: with limit 1 the first bundle already makes the cumulative forwarded
rows equal the limit, yet the following `add_input` is not a no-op: it
forwards another sliced row because `consumed_rows` is still 0. -/
theorem limit_post_limit_silence_bug :
    ((LimitOperator.init 1 none).add_input bundle2a 0).map
        (fun s =>
          (outputRows s, s.consumed_rows,
            (s.add_input bundle2b 0).map fun s2 => (outputRows s2, s2.buffer.length))) =
      some (1, 0, some (2, 2)) := by
  decide

/-- C4: the same run produces two forwarded blocks out of the slice branch,
contradicting the single-slice claim. -/
theorem limit_single_slice_bug :
    (runAddInputs (LimitOperator.init 1 none) limit1Bundles).map slicedCount =
      some 2 := by
  decide

/-- Any successful `add_input` preserves the limit and the construction-time
output estimate. -/
theorem add_input_preserves_fields (self s2 : LimitOperator) (refs : RefBundle)
    (i : Nat) (h : self.add_input refs i = some s2) :
    s2.limit = self.limit ∧
      s2.num_outputs_total_field = self.num_outputs_total_field := by
  unfold LimitOperator.add_input at h
  by_cases hi : i ≠ 0
  · rw [if_pos hi] at h; cases h
  · rw [if_neg hi] at h
    by_cases hlr : self.limit_reached = true
    · rw [if_pos hlr] at h
      cases h
      exact ⟨rfl, rfl⟩
    · rw [if_neg hlr] at h
      cases heq : addInputLoop self.limit self.consumed_rows refs.blocks with
      | none => rw [heq] at h; cases h
      | some pair =>
        rw [heq] at h
        cases h
        exact ⟨rfl, rfl⟩

/-- A run of `add_input` calls preserves the limit and the construction-time
output estimate. -/
theorem runAddInputs_preserves_fields :
    ∀ (bs : List RefBundle) (self s2 : LimitOperator),
      runAddInputs self bs = some s2 →
      s2.limit = self.limit ∧
        s2.num_outputs_total_field = self.num_outputs_total_field := by
  intro bs
  induction bs with
  | nil =>
    intro self s2 h
    unfold runAddInputs at h
    cases h
    exact ⟨rfl, rfl⟩
  | cons r rs ih =>
    intro self s2 h
    unfold runAddInputs at h
    cases heq : self.add_input r 0 with
    | none => rw [heq] at h; cases h
    | some s1 =>
      rw [heq] at h
      have h1 := add_input_preserves_fields self s1 r 0 heq
      have h2 := ih s1 s2 h
      exact ⟨h2.1.trans h1.1, h2.2.trans h1.2⟩

/-- C9: after any run from a fresh operator with limit `L` and upstream
estimate `u`, `num_outputs_total` returns exactly `L` once the limit has been
reached, and before that `min u L` when the upstream estimate was known at
construction, else `none`. -/
theorem num_outputs_total_correct (L : Nat) (u : Option Nat)
    (bs : List RefBundle) (st : LimitOperator)
    (h : runAddInputs (LimitOperator.init L u) bs = some st) :
    (st.limit ≤ st.consumed_rows → st.num_outputs_total = some L) ∧
    (st.consumed_rows < st.limit →
      st.num_outputs_total = Option.map (fun x => min x L) u) := by
  have hp := runAddInputs_preserves_fields bs _ st h
  have hL : st.limit = L := by simpa [LimitOperator.init] using hp.1
  have hF : st.num_outputs_total_field = Option.map (fun x => min x L) u := by
    rw [hp.2]; cases u <;> simp [LimitOperator.init]
  constructor
  · intro hr
    have hb : st.limit_reached = true := by
      simp [LimitOperator.limit_reached]; omega
    simp [LimitOperator.num_outputs_total, hb, hL]
  · intro hr
    have hb : st.limit_reached = false := by
      simp [LimitOperator.limit_reached]; omega
    simp [LimitOperator.num_outputs_total, hb, hF]

/-- C9 witness: the fresh limit-5 operator with upstream estimate 10
estimates `min 10 5 = 5` outputs. -/
theorem num_outputs_total_correct_witness :
    runAddInputs (LimitOperator.init 5 (some 10)) [] =
        some (LimitOperator.init 5 (some 10)) ∧
    (LimitOperator.init 5 (some 10)).num_outputs_total = some 5 := by
  refine ⟨rfl, ?_⟩
  have h := num_outputs_total_correct 5 (some 10) [] (LimitOperator.init 5 (some 10)) rfl
  rw [h.2 (by decide)]
  decide

/-- C10: while the limit is not reached, every successful `add_input` call
appends exactly one output bundle; for a blockless incoming bundle the
appended bundle is empty (inheriting `owns_blocks`), `has_next` becomes
true, and when the queue was previously empty `get_next` returns the empty
bundle. -/
theorem add_input_enqueues_one_bundle (self s2 : LimitOperator)
    (refs : RefBundle) (hlt : self.consumed_rows < self.limit)
    (h : self.add_input refs 0 = some s2) :
    s2.buffer.length = self.buffer.length + 1 ∧
    (refs.blocks = [] →
      s2.buffer = self.buffer ++ [{ blocks := [], owns_blocks := refs.owns_blocks }] ∧
      s2.has_next = true ∧
      (self.buffer = [] →
        s2.get_next =
          some ({ blocks := [], owns_blocks := refs.owns_blocks },
            { s2 with buffer := [] }))) := by
  unfold LimitOperator.add_input at h
  rw [if_neg (by simp)] at h
  have hlr : self.limit_reached = false := by
    simp [LimitOperator.limit_reached]; omega
  rw [hlr] at h
  simp only [Bool.false_eq_true, if_false] at h
  cases heq : addInputLoop self.limit self.consumed_rows refs.blocks with
  | none => rw [heq] at h; cases h
  | some pair =>
    rw [heq] at h
    cases h
    refine ⟨by simp, ?_⟩
    intro hempty
    rw [hempty] at heq
    unfold addInputLoop at heq
    cases heq
    refine ⟨by simp, by simp [LimitOperator.has_next], ?_⟩
    intro hbuf
    simp [LimitOperator.get_next, hbuf]

/-- C10 witness: the fresh limit-3 operator accepts an empty bundle and
enqueues one empty output bundle. -/
theorem add_input_enqueues_one_bundle_witness :
    c10start.consumed_rows < c10start.limit ∧
    c10start.add_input c10refs 0 = some c10after ∧
    (c10after.buffer.length = c10start.buffer.length + 1 ∧
      (c10refs.blocks = [] →
        c10after.buffer =
            c10start.buffer ++ [{ blocks := [], owns_blocks := c10refs.owns_blocks }] ∧
        c10after.has_next = true ∧
        (c10start.buffer = [] →
          c10after.get_next =
            some ({ blocks := [], owns_blocks := c10refs.owns_blocks },
              { c10after with buffer := [] })))) :=
  ⟨by decide, by decide,
    add_input_enqueues_one_bundle c10start c10after c10refs (by decide) (by decide)⟩

/-- Lookup after dictionary assignment at the same key. -/
theorem lookupB_insertB_self (m : List (Nat × RefBundle)) (k : Nat)
    (v : RefBundle) : lookupB (insertB m k v) k = some v := by
  induction m with
  | nil => simp [insertB, lookupB]
  | cons hd tl ih =>
    obtain ⟨k0, w⟩ := hd
    simp only [insertB]
    by_cases h : k0 = k
    · rw [if_pos h]
      simp [lookupB]
    · rw [if_neg h]
      simp only [lookupB]
      rw [if_neg h]
      exact ih

/-- Lookup after dictionary assignment at a different key. -/
theorem lookupB_insertB_ne (m : List (Nat × RefBundle)) (k j : Nat)
    (v : RefBundle) (h : j ≠ k) :
    lookupB (insertB m k v) j = lookupB m j := by
  induction m with
  | nil =>
    simp only [insertB, lookupB]
    rw [if_neg (Ne.symm h)]
  | cons hd tl ih =>
    obtain ⟨k0, w⟩ := hd
    simp only [insertB]
    by_cases hk : k0 = k
    · rw [if_pos hk]
      simp only [lookupB]
      rw [if_neg (Ne.symm h), if_neg (by rw [hk]; exact Ne.symm h)]
    · rw [if_neg hk]
      simp only [lookupB]
      by_cases hj : k0 = j
      · rw [if_pos hj, if_pos hj]
      · rw [if_neg hj, if_neg hj]
        exact ih

/-- Lookup after dictionary deletion at the deleted key. -/
theorem lookupB_eraseB_self (m : List (Nat × RefBundle)) (k : Nat) :
    lookupB (eraseB m k) k = none := by
  induction m with
  | nil => simp [eraseB, lookupB]
  | cons hd tl ih =>
    obtain ⟨k0, w⟩ := hd
    simp only [eraseB]
    by_cases h : k0 = k
    · rw [if_pos h]
      exact ih
    · rw [if_neg h]
      simp only [lookupB]
      rw [if_neg h]
      exact ih

/-- Lookup after dictionary deletion at a different key. -/
theorem lookupB_eraseB_ne (m : List (Nat × RefBundle)) (k j : Nat)
    (h : j ≠ k) : lookupB (eraseB m k) j = lookupB m j := by
  induction m with
  | nil => simp [eraseB]
  | cons hd tl ih =>
    obtain ⟨k0, w⟩ := hd
    simp only [eraseB]
    by_cases hk : k0 = k
    · rw [if_pos hk]
      rw [ih]
      simp only [lookupB]
      rw [if_neg (by rw [hk]; exact Ne.symm h)]
    · rw [if_neg hk]
      simp only [lookupB]
      by_cases hj : k0 = j
      · rw [if_pos hj, if_pos hj]
      · rw [if_neg hj, if_neg hj]
        exact ih

/-- C5: a `get` whose epoch id differs from the current epoch fails with the
stale-epoch error and returns the coordinator state — leftover map included —
completely unchanged, whatever that state holds. -/
theorem get_stale_epoch (self : SplitCoordinator) (pull : Nat → PullResult)
    (epoch_id : Int) (idx : Nat) (h : epoch_id ≠ self.cur_epoch) :
    self.get pull epoch_id idx = (GetResult.staleEpoch, self) := by
  unfold SplitCoordinator.get
  rw [if_pos h]

/-- C5 witness: epoch 0 is stale on the epoch-1 coordinator whose leftover
map still holds an epoch-0 bundle for index 0. -/
theorem get_stale_epoch_witness :
    (0 : Int) ≠ coordStale.cur_epoch ∧
    coordStale.get pullStop 0 0 = (GetResult.staleEpoch, coordStale) :=
  ⟨by decide, get_stale_epoch coordStale pullStop 0 0 (by decide)⟩

/-- C8: when the leftover map has no bundle for the index, an exhausted
pipeline makes `get` return no block with the whole state (so every leftover
entry) unchanged, and any other pull failure propagates unchanged, also
leaving the whole state untouched. -/
theorem get_exhaustion_and_failure (self : SplitCoordinator)
    (pull : Nat → PullResult) (epoch_id : Int) (idx : Nat)
    (he : epoch_id = self.cur_epoch)
    (hl : lookupB self.next_bundle idx = none) :
    (pull idx = PullResult.stopIteration →
      self.get pull epoch_id idx = (GetResult.ok none, self)) ∧
    (∀ e, pull idx = PullResult.failure e →
      self.get pull epoch_id idx = (GetResult.upstreamFailure e, self)) := by
  constructor
  · intro hp
    simp [SplitCoordinator.get, he, hl, hp]
  · intro e hp
    simp [SplitCoordinator.get, he, hl, hp]

/-- C8 witness: on a coordinator with an empty leftover map, exhaustion and
failure behave as claimed at index 0. -/
theorem get_exhaustion_and_failure_witness :
    ((0 : Int) = coordEmpty.cur_epoch ∧
      lookupB coordEmpty.next_bundle 0 = none) ∧
    ((pullStop 0 = PullResult.stopIteration →
        coordEmpty.get pullStop 0 0 = (GetResult.ok none, coordEmpty)) ∧
      (∀ e, pullStop 0 = PullResult.failure e →
        coordEmpty.get pullStop 0 0 = (GetResult.upstreamFailure e, coordEmpty))) :=
  ⟨⟨rfl, rfl⟩, get_exhaustion_and_failure coordEmpty pullStop 0 0 rfl rfl⟩

/-- What a successful pop-and-store does: the returned block is the tail of
the bundle, the leftover entry for the index afterwards holds the remainder
exactly when it is nonempty, and every other index is untouched. -/
theorem popAndStore_spec (self : SplitCoordinator) (idx : Nat)
    (nb : RefBundle) (blk : Block) (s2 : SplitCoordinator)
    (h : popAndStore self idx nb = (GetResult.ok (some blk), s2)) :
    nb.blocks ≠ [] ∧
    (∃ md, nb.blocks.getLast? = some (blk, md)) ∧
    lookupB s2.next_bundle idx =
      (if nb.blocks.dropLast = [] then none
        else some { nb with blocks := nb.blocks.dropLast }) ∧
    (∀ j, j ≠ idx → lookupB s2.next_bundle j = lookupB self.next_bundle j) := by
  unfold popAndStore at h
  cases hL : nb.blocks.getLast? with
  | none => rw [hL] at h; cases h
  | some pair =>
    rw [hL] at h
    obtain ⟨b1, m1⟩ := pair
    simp only [Prod.mk.injEq, GetResult.ok.injEq, Option.some.injEq] at h
    obtain ⟨hb, hs⟩ := h
    subst hb
    subst hs
    refine ⟨?_, ⟨m1, rfl⟩, ?_, ?_⟩
    · intro hnil
      rw [hnil] at hL
      cases hL
    · by_cases hrest : nb.blocks.dropLast = []
      · rw [if_pos hrest]
        simp only [hrest, List.isEmpty_nil, if_pos]
        exact lookupB_eraseB_self _ idx
      · rw [if_neg hrest]
        have : (nb.blocks.dropLast).isEmpty = false := by
          cases hc : nb.blocks.dropLast with
          | nil => exact absurd hc hrest
          | cons a as => simp
        rw [this]
        simp only [Bool.false_eq_true, if_false]
        exact lookupB_insertB_self _ idx _
    · intro j hj
      by_cases hrest : (nb.blocks.dropLast).isEmpty
      · rw [if_pos hrest]
        rw [lookupB_eraseB_ne _ idx j hj]
        exact lookupB_insertB_ne _ idx j _ hj
      · rw [if_neg hrest]
        exact lookupB_insertB_ne _ idx j _ hj

/-- C7: a `get` that returns a block consumed exactly the tail pair of the
bundle it drew (from the leftover map if present, else freshly pulled); the
leftover map afterwards has an entry at the index exactly when blocks
remain — so a map without empty bundles stays without empty bundles — and
all other indices keep their previous entries. -/
theorem get_pop_lifo (self s2 : SplitCoordinator) (pull : Nat → PullResult)
    (epoch_id : Int) (idx : Nat) (blk : Block)
    (h : self.get pull epoch_id idx = (GetResult.ok (some blk), s2)) :
    ∃ nb : RefBundle,
      (lookupB self.next_bundle idx = some nb ∨
        (lookupB self.next_bundle idx = none ∧
          pull idx = PullResult.bundle nb)) ∧
      nb.blocks ≠ [] ∧
      (∃ md, nb.blocks.getLast? = some (blk, md)) ∧
      lookupB s2.next_bundle idx =
        (if nb.blocks.dropLast = [] then none
          else some { nb with blocks := nb.blocks.dropLast }) ∧
      (∀ j, j ≠ idx → lookupB s2.next_bundle j = lookupB self.next_bundle j) ∧
      ((∀ k b, lookupB self.next_bundle k = some b → b.blocks ≠ []) →
        ∀ k b, lookupB s2.next_bundle k = some b → b.blocks ≠ []) := by
  unfold SplitCoordinator.get at h
  by_cases he : epoch_id ≠ self.cur_epoch
  · rw [if_pos he] at h
    cases h
  · rw [if_neg he] at h
    have main :
        ∃ nb : RefBundle,
          (lookupB self.next_bundle idx = some nb ∨
            (lookupB self.next_bundle idx = none ∧
              pull idx = PullResult.bundle nb)) ∧
          nb.blocks ≠ [] ∧
          (∃ md, nb.blocks.getLast? = some (blk, md)) ∧
          lookupB s2.next_bundle idx =
            (if nb.blocks.dropLast = [] then none
              else some { nb with blocks := nb.blocks.dropLast }) ∧
          (∀ j, j ≠ idx → lookupB s2.next_bundle j = lookupB self.next_bundle j) := by
      cases hlk : lookupB self.next_bundle idx with
      | some nb =>
        rw [hlk] at h
        obtain ⟨h1, h2, h3, h4⟩ := popAndStore_spec self idx nb blk s2 h
        exact ⟨nb, Or.inl rfl, h1, h2, h3, h4⟩
      | none =>
        rw [hlk] at h
        cases hp : pull idx with
        | stopIteration => rw [hp] at h; cases h
        | failure e => rw [hp] at h; cases h
        | bundle nb =>
          rw [hp] at h
          obtain ⟨h1, h2, h3, h4⟩ := popAndStore_spec self idx nb blk s2 h
          exact ⟨nb, Or.inr ⟨rfl, rfl⟩, h1, h2, h3, h4⟩
    obtain ⟨nb, hsrc, hne, hmd, hidx, hother⟩ := main
    refine ⟨nb, hsrc, hne, hmd, hidx, hother, ?_⟩
    intro hpre k b hk
    by_cases hkidx : k = idx
    · subst hkidx
      rw [hidx] at hk
      by_cases hd : nb.blocks.dropLast = []
      · rw [if_pos hd] at hk
        cases hk
      · rw [if_neg hd] at hk
        cases hk
        exact hd
    · rw [hother k hkidx] at hk
      exact hpre k b hk

/-- C7 witness: a leftover bundle with two one-row blocks yields its second
block and leaves a one-block leftover entry. -/
theorem get_pop_lifo_witness :
    coordTwo.get pullStop 0 0 = (GetResult.ok (some [2]), coordTwoAfter) ∧
    (∃ nb : RefBundle,
      (lookupB coordTwo.next_bundle 0 = some nb ∨
        (lookupB coordTwo.next_bundle 0 = none ∧
          pullStop 0 = PullResult.bundle nb)) ∧
      nb.blocks ≠ [] ∧
      (∃ md, nb.blocks.getLast? = some ([2], md)) ∧
      lookupB coordTwoAfter.next_bundle 0 =
        (if nb.blocks.dropLast = [] then none
          else some { nb with blocks := nb.blocks.dropLast }) ∧
      (∀ j, j ≠ 0 → lookupB coordTwoAfter.next_bundle j = lookupB coordTwo.next_bundle j) ∧
      ((∀ k b, lookupB coordTwo.next_bundle k = some b → b.blocks ≠ []) →
        ∀ k b, lookupB coordTwoAfter.next_bundle k = some b → b.blocks ≠ [])) :=
  ⟨by decide, get_pop_lifo coordTwo coordTwoAfter pullStop 0 0 [2] (by decide)⟩

/-- Updating one thread changes a phase count by the difference of the
indicator at the old and the new phase. -/
theorem filter_card_update {n : Nat} (p : ThreadPhase → Bool)
    (f : Fin n → ThreadPhase) (i : Fin n) (ph : ThreadPhase) :
    (Finset.univ.filter fun j => p (Function.update f i ph j) = true).card +
      (if p (f i) = true then 1 else 0) =
    (Finset.univ.filter fun j => p (f j) = true).card +
      (if p ph = true then 1 else 0) := by
  classical
  rw [Finset.card_filter, Finset.card_filter]
  have hfun : (fun j => if p (Function.update f i ph j) = true then 1 else 0) =
      Function.update (fun j => if p (f j) = true then 1 else 0) i
        (if p ph = true then 1 else 0) := by
    funext j
    by_cases hj : j = i
    · subst hj
      simp [Function.update]
    · simp [Function.update, hj]
  rw [hfun]
  rw [Finset.sum_update_of_mem (Finset.mem_univ i)]
  have hsplit : (∑ j ∈ Finset.univ, if p (f j) = true then 1 else 0) =
      (∑ j ∈ Finset.univ \ {i}, if p (f j) = true then 1 else 0) +
        (if p (f i) = true then 1 else 0) :=
    Finset.sum_eq_sum_diff_singleton_add (Finset.mem_univ i) _
  omega

/-- `arrivedCount` under a single-thread update. -/
theorem arrivedCount_update {n : Nat} (f : Fin n → ThreadPhase) (i : Fin n)
    (ph : ThreadPhase) :
    arrivedCount (Function.update f i ph) +
      (if isArrivedPhase (f i) = true then 1 else 0) =
    arrivedCount f + (if isArrivedPhase ph = true then 1 else 0) :=
  filter_card_update isArrivedPhase f i ph

/-- `constructedCount` under a single-thread update. -/
theorem constructedCount_update {n : Nat} (f : Fin n → ThreadPhase) (i : Fin n)
    (ph : ThreadPhase) :
    constructedCount (Function.update f i ph) +
      (if isConstructedPhase (f i) = true then 1 else 0) =
    constructedCount f + (if isConstructedPhase ph = true then 1 else 0) :=
  filter_card_update isConstructedPhase f i ph

/-- When every one of the `n` threads is counted, each thread has arrived. -/
theorem arrivedCount_full {n : Nat} (ts : Fin n → ThreadPhase)
    (h : arrivedCount ts = n) (j : Fin n) : isArrivedPhase (ts j) = true := by
  by_contra hj
  have hsub : (Finset.univ.filter fun i => isArrivedPhase (ts i) = true) ⊆
      Finset.univ.erase j := by
    intro x hx
    rw [Finset.mem_filter] at hx
    rw [Finset.mem_erase]
    refine ⟨?_, Finset.mem_univ x⟩
    intro hxj
    subst hxj
    exact hj hx.2
  have hle := Finset.card_le_card hsub
  rw [Finset.card_erase_of_mem (Finset.mem_univ j), Finset.card_univ,
    Fintype.card_fin] at hle
  have hpos : 0 < n := j.pos
  unfold arrivedCount at h
  omega

/-- A thread is at most `n`-counted. -/
theorem arrivedCount_le {n : Nat} (ts : Fin n → ThreadPhase) :
    arrivedCount ts ≤ n := by
  unfold arrivedCount
  calc (Finset.univ.filter fun i => isArrivedPhase (ts i) = true).card
      ≤ (Finset.univ : Finset (Fin n)).card :=
        Finset.card_le_card (Finset.filter_subset _ _)
    _ = n := by rw [Finset.card_univ, Fintype.card_fin]

/-- A finished thread is past the polling loop. -/
theorem isPassed_of_isDone (ph : ThreadPhase) (h : isDonePhase ph = true) :
    isPassedPhase ph = true := by
  cases ph <;> simp_all [isDonePhase, isPassedPhase]

/-- No thread of the fresh barrier has arrived. -/
theorem arrivedCount_init (n : Nat) (e : Int) :
    arrivedCount (barrierInit n e).threads = 0 := by
  unfold arrivedCount barrierInit
  simp [isArrivedPhase]

/-- No thread of the fresh barrier has constructed a runner. -/
theorem constructedCount_init (n : Nat) (e : Int) :
    constructedCount (barrierInit n e).threads = 0 := by
  unfold constructedCount barrierInit
  simp [isConstructedPhase]

/-- The fresh barrier satisfies the invariant. -/
theorem BarrierInv_init (n : Nat) (e : Int) : BarrierInv n e (barrierInit n e) := by
  refine ⟨Or.inl rfl, ?_, ?_, ?_, ?_, ?_, ?_, ?_, ?_, ?_⟩
  · intro i se h
    simp [barrierInit] at h
  · intro i se h
    simp [barrierInit] at h
  · intro i r c h
    simp [barrierInit] at h
  · intro _
    refine ⟨?_, rfl⟩
    rw [arrivedCount_init]
    simp [barrierInit]
  · intro hc
    exfalso
    have : e = e + 1 := hc
    omega
  · intro h
    exfalso
    obtain ⟨i, hi⟩ := h
    simp [barrierInit, isPassedPhase] at hi
  · intro h
    exfalso
    obtain ⟨i, hi⟩ := h
    simp [barrierInit, isDonePhase] at hi
  · rw [constructedCount_init]
    rfl
  · intro hc
    exfalso
    have : e = e + 1 := hc
    omega

/-- Every barrier step preserves the invariant. -/
theorem BarrierInv_step {n : Nat} (e : Int) (s s2 : BarrierState n)
    (hI : BarrierInv n e s) (hs : BStep s s2) : BarrierInv n e s2 := by
  obtain ⟨I1, I2, I3, I4, I5, I6, I7, I8, I9, I10⟩ := hI
  cases hs with
  | arrive i _ hstart =>
    have hcur : s.cur_epoch = e := by
      rcases I1 with h | h
      · exact h
      · exfalso
        obtain ⟨j, hj⟩ := I10 h
        have hfull := I7 ⟨j, isPassed_of_isDone _ hj⟩
        have hi := arrivedCount_full s.threads hfull i
        rw [hstart] at hi
        simp [isArrivedPhase] at hi
    have hcount := arrivedCount_update s.threads i (ThreadPhase.arrived s.cur_epoch)
    rw [hstart] at hcount
    simp [isArrivedPhase] at hcount
    have hccount := constructedCount_update s.threads i (ThreadPhase.arrived s.cur_epoch)
    rw [hstart] at hccount
    simp [isConstructedPhase] at hccount
    unfold BarrierInv
    dsimp only
    refine ⟨Or.inl hcur, ?_, ?_, ?_, ?_, ?_, ?_, ?_, ?_, ?_⟩
    · intro j se hj
      by_cases hji : j = i
      · subst hji
        rw [Function.update_same] at hj
        injection hj with h2
        omega
      · rw [Function.update_noteq hji] at hj
        exact I2 j se hj
    · intro j se hj
      by_cases hji : j = i
      · subst hji
        rw [Function.update_same] at hj
        exact ThreadPhase.noConfusion hj
      · rw [Function.update_noteq hji] at hj
        exact I3 j se hj
    · intro j r c hj
      by_cases hji : j = i
      · subst hji
        rw [Function.update_same] at hj
        exact ThreadPhase.noConfusion hj
      · rw [Function.update_noteq hji] at hj
        exact I4 j r c hj
    · intro _
      obtain ⟨hu, hrun⟩ := I5 hcur
      refine ⟨?_, hrun⟩
      rw [hcount]
      push_cast
      omega
    · intro hc2
      exfalso
      omega
    · intro h
      exfalso
      obtain ⟨j, hj⟩ := h
      by_cases hji : j = i
      · subst hji
        rw [Function.update_same] at hj
        simp [isPassedPhase] at hj
      · rw [Function.update_noteq hji] at hj
        have hfull := I7 ⟨j, hj⟩
        have hi := arrivedCount_full s.threads hfull i
        rw [hstart] at hi
        simp [isArrivedPhase] at hi
    · intro h
      exfalso
      obtain ⟨j, hj⟩ := h
      by_cases hji : j = i
      · subst hji
        rw [Function.update_same] at hj
        simp [isDonePhase] at hj
      · rw [Function.update_noteq hji] at hj
        have := I8 ⟨j, hj⟩
        omega
    · rw [hccount]
      exact I9
    · intro hc2
      exfalso
      omega
  | pass i se _ harr hguard =>
    have hse : se = e := I2 i se harr
    subst se
    have hcount := arrivedCount_update s.threads i (ThreadPhase.passed e)
    rw [harr] at hcount
    simp [isArrivedPhase] at hcount
    have hccount := constructedCount_update s.threads i (ThreadPhase.passed e)
    rw [harr] at hccount
    simp [isConstructedPhase] at hccount
    have hfull : arrivedCount s.threads = n := by
      rcases hguard with hne | hzero
      · rcases I1 with hc | hc
        · exact absurd hc hne
        · obtain ⟨j, hj⟩ := I10 hc
          exact I7 ⟨j, isPassed_of_isDone _ hj⟩
      · rcases I1 with hc | hc
        · obtain ⟨hu, _⟩ := I5 hc
          rw [hzero] at hu
          have hle := arrivedCount_le s.threads
          omega
        · obtain ⟨j, hj⟩ := I10 hc
          exact I7 ⟨j, isPassed_of_isDone _ hj⟩
    unfold BarrierInv
    dsimp only
    refine ⟨I1, ?_, ?_, ?_, ?_, ?_, ?_, ?_, ?_, ?_⟩
    · intro j se2 hj
      by_cases hji : j = i
      · subst hji
        rw [Function.update_same] at hj
        exact ThreadPhase.noConfusion hj
      · rw [Function.update_noteq hji] at hj
        exact I2 j se2 hj
    · intro j se2 hj
      by_cases hji : j = i
      · subst hji
        rw [Function.update_same] at hj
        injection hj with h2
        omega
      · rw [Function.update_noteq hji] at hj
        exact I3 j se2 hj
    · intro j r c hj
      by_cases hji : j = i
      · subst hji
        rw [Function.update_same] at hj
        exact ThreadPhase.noConfusion hj
      · rw [Function.update_noteq hji] at hj
        exact I4 j r c hj
    · intro hc
      obtain ⟨hu, hrun⟩ := I5 hc
      refine ⟨?_, hrun⟩
      rw [hcount]
      exact hu
    · intro hc
      exact I6 hc
    · intro _
      rw [hcount]
      exact hfull
    · intro h
      obtain ⟨j, hj⟩ := h
      by_cases hji : j = i
      · subst hji
        rw [Function.update_same] at hj
        simp [isDonePhase] at hj
      · rw [Function.update_noteq hji] at hj
        exact I8 ⟨j, hj⟩
    · rw [hccount]
      exact I9
    · intro hc
      obtain ⟨j, hj⟩ := I10 hc
      refine ⟨j, ?_⟩
      by_cases hji : j = i
      · subst hji
        rw [harr] at hj
        simp [isDonePhase] at hj
      · rw [Function.update_noteq hji]
        exact hj
  | finishWin i se _ hpass hcure =>
    have hse : se = e := I3 i se hpass
    have hcur : s.cur_epoch = e := by rw [hcure, hse]
    have hcount := arrivedCount_update s.threads i (ThreadPhase.done (se + 1) true)
    rw [hpass] at hcount
    simp [isArrivedPhase] at hcount
    have hccount := constructedCount_update s.threads i (ThreadPhase.done (se + 1) true)
    rw [hpass] at hccount
    simp [isConstructedPhase] at hccount
    obtain ⟨hu, hrun0⟩ := I5 hcur
    have hfull := I7 ⟨i, by rw [hpass]; rfl⟩
    unfold BarrierInv
    dsimp only
    refine ⟨Or.inr (by omega), ?_, ?_, ?_, ?_, ?_, ?_, ?_, ?_, ?_⟩
    · intro j se2 hj
      by_cases hji : j = i
      · subst hji
        rw [Function.update_same] at hj
        exact ThreadPhase.noConfusion hj
      · rw [Function.update_noteq hji] at hj
        exact I2 j se2 hj
    · intro j se2 hj
      by_cases hji : j = i
      · subst hji
        rw [Function.update_same] at hj
        exact ThreadPhase.noConfusion hj
      · rw [Function.update_noteq hji] at hj
        exact I3 j se2 hj
    · intro j r c hj
      by_cases hji : j = i
      · subst hji
        rw [Function.update_same] at hj
        injection hj with h2 h3
        omega
      · rw [Function.update_noteq hji] at hj
        exact I4 j r c hj
    · intro hc
      exfalso
      omega
    · intro _
      refine ⟨rfl, ?_⟩
      rw [hrun0]
    · intro _
      rw [hcount]
      exact hfull
    · intro _
      omega
    · rw [hccount, I9]
    · intro _
      refine ⟨i, ?_⟩
      rw [Function.update_same]
      rfl
  | finishSkip i se _ hpass hcurne =>
    have hse : se = e := I3 i se hpass
    have hcur1 : s.cur_epoch = e + 1 := by
      rcases I1 with hc | hc
      · exact absurd (by omega : s.cur_epoch = se) hcurne
      · exact hc
    have hcount := arrivedCount_update s.threads i (ThreadPhase.done (se + 1) false)
    rw [hpass] at hcount
    simp [isArrivedPhase] at hcount
    have hccount := constructedCount_update s.threads i (ThreadPhase.done (se + 1) false)
    rw [hpass] at hccount
    simp [isConstructedPhase] at hccount
    have hfull := I7 ⟨i, by rw [hpass]; rfl⟩
    unfold BarrierInv
    dsimp only
    refine ⟨Or.inr hcur1, ?_, ?_, ?_, ?_, ?_, ?_, ?_, ?_, ?_⟩
    · intro j se2 hj
      by_cases hji : j = i
      · subst hji
        rw [Function.update_same] at hj
        exact ThreadPhase.noConfusion hj
      · rw [Function.update_noteq hji] at hj
        exact I2 j se2 hj
    · intro j se2 hj
      by_cases hji : j = i
      · subst hji
        rw [Function.update_same] at hj
        exact ThreadPhase.noConfusion hj
      · rw [Function.update_noteq hji] at hj
        exact I3 j se2 hj
    · intro j r c hj
      by_cases hji : j = i
      · subst hji
        rw [Function.update_same] at hj
        injection hj with h2 h3
        omega
      · rw [Function.update_noteq hji] at hj
        exact I4 j r c hj
    · intro hc
      exfalso
      omega
    · intro hc
      exact I6 hc
    · intro _
      rw [hcount]
      exact hfull
    · intro _
      exact hcur1
    · rw [hccount]
      exact I9
    · intro _
      refine ⟨i, ?_⟩
      rw [Function.update_same]
      rfl

/-- Every reachable barrier state satisfies the invariant. -/
theorem BarrierInv_reachable (n : Nat) (e : Int) (s : BarrierState n)
    (hr : BarrierReachable n e s) : BarrierInv n e s := by
  unfold BarrierReachable at hr
  induction hr with
  | refl => exact BarrierInv_init n e
  | tail _ hstep ih => exact BarrierInv_step e _ _ ih hstep

/-- C6: in every reachable state of the barrier started at epoch `e` with
`n` clients, no thread is past the polling loop before every thread has
arrived (decremented the counter); and when all `n` calls have returned,
every call returned `e + 1`, the epoch advanced to `e + 1`, the counter was
reset to `n`, and exactly one thread constructed the new pipeline runner. -/
theorem barrier_correct (n : Nat) (e : Int) (s : BarrierState n) (hn : 0 < n)
    (hr : BarrierReachable n e s) :
    ((∃ i, isPassedPhase (s.threads i) = true) →
      ∀ j, s.threads j ≠ ThreadPhase.start) ∧
    ((∀ i, isDonePhase (s.threads i) = true) →
      (∀ i r c, s.threads i = ThreadPhase.done r c → r = e + 1) ∧
      s.cur_epoch = e + 1 ∧ s.unfinished = (n : Int) ∧
      constructedCount s.threads = 1) := by
  obtain ⟨I1, I2, I3, I4, I5, I6, I7, I8, I9, I10⟩ := BarrierInv_reachable n e s hr
  constructor
  · intro hex j hj
    have hfull := I7 hex
    have hcnt := arrivedCount_full s.threads hfull j
    rw [hj] at hcnt
    simp [isArrivedPhase] at hcnt
  · intro hall
    have hc : s.cur_epoch = e + 1 := I8 ⟨⟨0, hn⟩, hall ⟨0, hn⟩⟩
    obtain ⟨hu, hrun⟩ := I6 hc
    exact ⟨I4, hc, hu, by rw [I9, hrun]⟩

/-- C6 witness: the single-client barrier from epoch 0 runs to completion;
the call returns 1 and constructs exactly one runner. -/
theorem barrier_correct_witness :
    BarrierReachable 1 0 bw3 ∧
    ((∀ i r c, bw3.threads i = ThreadPhase.done r c → r = 0 + 1) ∧
      bw3.cur_epoch = 0 + 1 ∧ bw3.unfinished = ((1 : Nat) : Int) ∧
      constructedCount bw3.threads = 1) := by
  have h01 : BStep (barrierInit 1 0) bw1 := BStep.arrive 0 (barrierInit 1 0) rfl
  have h12 : BStep bw1 bw2 := by
    have harr : bw1.threads 0 = ThreadPhase.arrived 0 := by
      show Function.update (barrierInit 1 0).threads 0
        (ThreadPhase.arrived (barrierInit 1 0).cur_epoch) 0 = ThreadPhase.arrived 0
      rw [Function.update_same]
      rfl
    have hz : bw1.unfinished = 0 := by
      show (barrierInit 1 0).unfinished - 1 = 0
      rfl
    exact BStep.pass 0 0 bw1 harr (Or.inr hz)
  have h23 : BStep bw2 bw3 := by
    have hp : bw2.threads 0 = ThreadPhase.passed 0 := by
      show Function.update bw1.threads 0 (ThreadPhase.passed 0) 0 = ThreadPhase.passed 0
      rw [Function.update_same]
    exact BStep.finishWin 0 0 bw2 hp rfl
  have hreach : BarrierReachable 1 0 bw3 :=
    Relation.ReflTransGen.tail
      (Relation.ReflTransGen.tail
        (Relation.ReflTransGen.tail Relation.ReflTransGen.refl h01) h12) h23
  have hall : ∀ i : Fin 1, isDonePhase (bw3.threads i) = true := by
    intro i
    have hi : i = 0 := by omega
    subst hi
    show isDonePhase (Function.update bw2.threads 0 (ThreadPhase.done (0 + 1) true) 0) = true
    rw [Function.update_same]
    rfl
  exact ⟨hreach, (barrier_correct 1 0 bw3 (by omega) hreach).2 hall⟩
